import Mathlib

/-!
Shallow embedding of the minidb storage engine (Go sources: disk/disk.go,
buffer/buffer.go, btree/{btree,leaf,branch,meta,node,pair}.go,
table/{table,tuple}.go) and theorems settling the specification claims.

Modelling conventions:
* Byte strings (Go byte slices) are lists of natural numbers; the modelled
  operations never truncate byte values, and the 16-bit length fields of the
  on-page encodings are modelled with explicit mod 2 ^ 16 arithmetic exactly
  where the source narrows an int to uint16.
* A leaf or branch page is represented by the logical content that the Go
  slotted-page layout stores: the ordered list of pairs (respectively
  separator keys and child page ids) plus the sibling pointers of a leaf.
  Every reachable page of the source is produced by Initialize followed by
  the modelled insert operations, under which the free-space accounting of
  the byte layout is a function of that logical content; the free-space
  computations below reproduce the byte arithmetic of the source exactly.
* The Go loops (binary search, clock sweep) are modelled with an explicit
  fuel argument that strictly exceeds the number of iterations the loop can
  perform, so the fuel-exhaustion fallback is unreachable; fuel keeps every
  definition executable by the kernel.
-/

namespace MiniDB

/-- Byte strings, Go byte slices. -/
abbrev Bytes := List Nat

/-- Go bytes.Compare: lexicographic byte comparison, a strict prefix is
smaller. -/
def byteCompare : Bytes → Bytes → Ordering
  | [], [] => .eq
  | [], _ :: _ => .lt
  | _ :: _, [] => .gt
  | a :: as, b :: bs =>
    if a < b then .lt
    else if b < a then .gt
    else byteCompare as bs

/-- Little-endian 16-bit encoding, Go binary.LittleEndian.PutUint16 applied
to uint16(n): the uint16 conversion truncates mod 2 ^ 16 and the two stored
bytes are the low and high byte of that value. -/
def u16LE (n : Nat) : Bytes := [n % 256, n / 256 % 256]

/-- Go binary.LittleEndian.Uint16 on the first two bytes of a buffer.  The
source always calls it on a buffer holding at least two bytes; the catch-all
cases make the model total. -/
def readU16 : Bytes → Nat
  | b0 :: b1 :: _ => b0 + 256 * b1
  | [b0] => b0
  | [] => 0

/-- Key/value pair stored in a leaf, btree/pair.go. -/
structure Pair where
  key : Bytes
  value : Bytes
deriving DecidableEq, Repr

/-- Pair.ToBytes, btree/pair.go lines 330-339: key length and value length as
little-endian uint16 followed by the raw key and value bytes. -/
def Pair.ToBytes (p : Pair) : Bytes :=
  u16LE p.key.length ++ u16LE p.value.length ++ p.key ++ p.value

/-- PairFromBytes, btree/pair.go lines 342-350: read the two length fields,
then slice the key out of bytes 4..4+keyLen and the value out of the
following valueLen bytes. -/
def PairFromBytes (data : Bytes) : Pair :=
  let keyLen := readU16 data
  let valueLen := readU16 (data.drop 2)
  { key := (data.drop 4).take keyLen
    value := (data.drop (4 + keyLen)).take valueLen }

/-- Encoded size of a pair, btree/pair.go PairSize: four length bytes plus
key plus value. -/
def pairBytesLen (p : Pair) : Nat := 4 + p.key.length + p.value.length

/-! Tuple layer, table/tuple.go. -/

/-- A tuple is an ordered list of byte-string elements. -/
abbrev Tuple := List Bytes

/-- Element list of Tuple.Encode: for each element its length as
little-endian uint16 followed by the element bytes. -/
def encodeElems : Tuple → Bytes
  | [] => []
  | e :: es => u16LE e.length ++ e ++ encodeElems es

/-- Tuple.Encode, table/tuple.go lines 111-134: the number of elements as
little-endian uint16 followed by the length-prefixed elements. -/
def Tuple.Encode (t : Tuple) : Bytes := u16LE t.length ++ encodeElems t

/-- Element-reading loop of DecodeTuple: read numElems elements, each a
little-endian uint16 length followed by that many bytes. -/
def decodeElems : Nat → Bytes → Tuple
  | 0, _ => []
  | n + 1, data =>
    let len := readU16 data
    (data.drop 2).take len :: decodeElems n ((data.drop 2).drop len)

/-- DecodeTuple, table/tuple.go lines 137-152. -/
def DecodeTuple (data : Bytes) : Tuple := decodeElems (readU16 data) (data.drop 2)

/-- SplitTuple, table/tuple.go lines 155-160: clamp numKeyElems to the tuple
length, then split at that index. -/
def SplitTuple (t : Tuple) (numKeyElems : Nat) : Tuple × Tuple :=
  let m := if numKeyElems > t.length then t.length else numKeyElems
  (t.take m, t.drop m)

/-- MergeTuple, table/tuple.go lines 163-168: concatenate key and value
element lists. -/
def MergeTuple (key value : Tuple) : Tuple := key ++ value

/-! Leaf nodes, btree/leaf.go.

A leaf page stores, inside the 4088-byte node payload
(PageSize 4096 minus NodeHeaderSize 8): prev and next page id (8 bytes
each, all-ones sentinel for none), num_pairs and free_space_offset
(2 bytes each, header size 20), a forward-growing slot array of 2-byte
offsets and backward-growing encoded pairs.  The logical content is the
slot-ordered pair list plus the two sibling pointers; free_space_offset of
every leaf built by Initialize and Insert equals the payload size minus
the total encoded size of its pairs, which is how freeSpace is computed
below. -/

/-- Node payload size: PageSize 4096 (disk/disk.go) minus NodeHeaderSize 8
(btree/node.go).  Leaf and Branch views are created on page bytes 8.. so
their data slice has this length. -/
def nodePayloadSize : Nat := 4096 - 8

/-- Logical content of a leaf page. -/
structure Leaf where
  prevPageID : Option Nat
  nextPageID : Option Nat
  pairs : List Pair
deriving DecidableEq, Repr

/-- Leaf.Initialize, btree/leaf.go lines 36-41: no siblings, no pairs,
free_space_offset at the end of the payload. -/
def leafEmpty : Leaf := { prevPageID := none, nextPageID := none, pairs := [] }

/-- NumPairs. -/
def Leaf.numPairs (l : Leaf) : Nat := l.pairs.length

/-- Total encoded size of the stored pairs; payload size minus this value
is the free_space_offset of a leaf built by Initialize and Insert. -/
def Leaf.sumPairBytes (l : Leaf) : Nat := (l.pairs.map pairBytesLen).sum

/-- Leaf.freeSpace, btree/leaf.go lines 120-123: free_space_offset minus the
end of the slot array (header size 20 plus 2 bytes per pair).  Computed in
the integers, as the Go int subtraction. -/
def Leaf.freeSpace (l : Leaf) : Int :=
  (nodePayloadSize : Int) - l.sumPairBytes - (20 + 2 * l.numPairs)

/-- Binary-search loop of Leaf.SearchSlotID, btree/leaf.go lines 133-149.
The fuel strictly exceeds hi - lo at every call below, and each iteration
shrinks hi - lo, so the fuel-exhaustion fallback is unreachable. -/
def leafSearchAux (ps : List Pair) (key : Bytes) : Nat → Nat → Nat → Nat × Bool
  | 0, lo, _ => (lo, false)
  | fuel + 1, lo, hi =>
    if lo < hi then
      let mid := (lo + hi) / 2
      let p := ps.getD mid { key := [], value := [] }
      match byteCompare p.key key with
      | .lt => leafSearchAux ps key fuel (mid + 1) hi
      | .gt => leafSearchAux ps key fuel lo mid
      | .eq => (mid, true)
    else (lo, false)

/-- Leaf.SearchSlotID: position of an equal key (found) or the lower-bound
insertion position (not found). -/
def Leaf.SearchSlotID (l : Leaf) (key : Bytes) : Nat × Bool :=
  leafSearchAux l.pairs key (l.pairs.length + 1) 0 l.pairs.length

/-- Leaf.Insert, btree/leaf.go lines 153-177: fail (none) when the free
space is smaller than slot size 2 plus the encoded pair size, otherwise
shift the slots from slotID on and place the new pair there.  The source is
only ever called with slotID at most num_pairs (a search result), where the
slot shifting is exactly a list insertion at slotID. -/
def Leaf.insert (l : Leaf) (slotID : Nat) (key value : Bytes) : Option Leaf :=
  let pairLen := pairBytesLen { key := key, value := value }
  if l.freeSpace < 2 + pairLen then none
  else some { l with pairs := l.pairs.insertIdx slotID { key := key, value := value } }

/-- Linear scan of Leaf.SplitInsert, btree/leaf.go lines 189-192: first
position whose key is not smaller than the new key. -/
def insertPosition : List Pair → Bytes → Nat
  | [], _ => 0
  | p :: ps, key =>
    if byteCompare p.key key = .lt then insertPosition ps key + 1 else 0

/-- Rebuild loop of Leaf.SplitInsert: starting from a freshly initialized
leaf, Insert each pair at the end, silently skipping a pair whose Insert
reports lack of space.  In every run evaluated in this file all rebuild
inserts fit, where the running slot index of the source equals the current
number of pairs used here (on a failing insert the source writes a slot
beyond the slot array, corrupting the page; no such run is evaluated). -/
def leafInsertAll (ps : List Pair) : Leaf :=
  ps.foldl (fun acc p => (acc.insert acc.pairs.length p.key p.value).getD acc) leafEmpty

/-- Leaf.SplitInsert, btree/leaf.go lines 181-215: gather all pairs, splice
the new pair at its lower-bound position, split at mid = len / 2, rebuild
the new leaf from the lower half and the current leaf from the upper half
(both re-Initialized, which also clears their sibling pointers), and return
the last key of the lower half.  Result: (new leaf, current leaf, overflow
key).  With an empty pre-split leaf the source reads pairs[-1] and panics;
the getD default is unreachable in every evaluated run. -/
def Leaf.splitInsert (l : Leaf) (key value : Bytes) : Leaf × Leaf × Bytes :=
  let ps := l.pairs.insertIdx (insertPosition l.pairs key) { key := key, value := value }
  let mid := ps.length / 2
  (leafInsertAll (ps.take mid), leafInsertAll (ps.drop mid),
    (ps.getD (mid - 1) { key := [], value := [] }).key)

/-! Branch nodes, btree/branch.go.

A branch page stores, inside the 4088-byte payload: num_children and
free_space_offset (2 bytes each, header size 4), a slot array reserved for
maxKeys = 100 key offsets (2 bytes each), num_children child page ids
(8 bytes each) and backward-growing key records.  The logical content is
the ordered separator-key list and child page-id list; every branch built
by Initialize, Insert and SplitInsert has free_space_offset equal to the
payload size minus the total size of its key records (2 length bytes plus
the key bytes each). -/

/-- Logical content of a branch page.  In every reachable branch the number
of children is the number of keys plus one; NumKeys and NumChildren are
read off the lists. -/
structure Branch where
  keys : List Bytes
  children : List Nat
deriving DecidableEq, Repr

/-- Branch view of a zeroed page: num_children 0, no keys.  This is the
state of a freshly created branch page before SplitInsert fills it
(btree/btree.go lines 294-297 create the page and write only the node-type
header). -/
def branchEmpty : Branch := { keys := [], children := [] }

/-- Branch.Initialize, btree/branch.go lines 111-126: two children and one
separator key. -/
def Branch.initRoot (key : Bytes) (leftChild rightChild : Nat) : Branch :=
  { keys := [key], children := [leftChild, rightChild] }

/-- NumChildren, read from the child list (equal to the stored num_children
field in every reachable branch). -/
def Branch.numChildren (b : Branch) : Nat := b.children.length

/-- ChildAt. -/
def Branch.childAt (b : Branch) (idx : Nat) : Nat := b.children.getD idx 0

/-- Total size of the key records of a branch. -/
def Branch.sumKeyBytes (b : Branch) : Nat := (b.keys.map (fun k => 2 + k.length)).sum

/-- Branch.freeSpace, btree/branch.go lines 151-155: free_space_offset
minus the end of the child array, which sits after the header (4 bytes) and
the maxKeys = 100 reserved key slots (2 bytes each). -/
def Branch.freeSpace (b : Branch) : Int :=
  (nodePayloadSize : Int) - b.sumKeyBytes - (4 + 100 * 2 + 8 * b.numChildren)

/-- Binary-search loop of Branch.SearchChildIdx, btree/branch.go lines
129-142: strict upper bound, a separator less than or equal to the key
sends the search right.  Fuel as in leafSearchAux. -/
def branchSearchAux (ks : List Bytes) (key : Bytes) : Nat → Nat → Nat → Nat
  | 0, lo, _ => lo
  | fuel + 1, lo, hi =>
    if lo < hi then
      let mid := (lo + hi) / 2
      let midKey := ks.getD mid []
      if byteCompare midKey key = .gt then branchSearchAux ks key fuel lo mid
      else branchSearchAux ks key fuel (mid + 1) hi
    else lo

/-- Branch.SearchChildIdx: smallest index whose separator is strictly
greater than the key, i.e. the child subtree that may contain the key. -/
def Branch.searchChildIdx (b : Branch) (key : Bytes) : Nat :=
  branchSearchAux b.keys key (b.keys.length + 1) 0 b.keys.length

/-- Branch.Insert, btree/branch.go lines 159-191: fail (none) when the free
space is smaller than the key record plus one child id, otherwise shift the
children after childIdx right and place the new child at childIdx + 1, and
shift the key slots from childIdx right and place the key there. -/
def Branch.insert (b : Branch) (childIdx : Nat) (key : Bytes) (newChildPageID : Nat) :
    Option Branch :=
  if b.freeSpace < 2 + key.length + 8 then none
  else some { keys := b.keys.insertIdx childIdx key
              children := b.children.insertIdx (childIdx + 1) newChildPageID }

/-- Linear scan of Branch.SplitInsert, btree/branch.go lines 209-212: first
position whose key is strictly greater than the new key (an equal separator
sends the new key right). -/
def branchInsertPosition : List Bytes → Bytes → Nat
  | [], _ => 0
  | k :: ks, key =>
    if byteCompare k key = .gt then 0 else branchInsertPosition ks key + 1

/-- Branch.SplitInsert, btree/branch.go lines 195-253: gather keys and
children, splice the new key at its upper-bound position and the new child
one past it, split at mid = len / 2; the new branch receives keys below mid
and children up to mid, the current branch keys above mid and the remaining
children, and keys[mid] is promoted without being kept in either half.
Result: (new branch, current branch, overflow key). -/
def Branch.splitInsert (b : Branch) (key : Bytes) (newChildPageID : Nat) :
    Branch × Branch × Bytes :=
  let pos := branchInsertPosition b.keys key
  let ks := b.keys.insertIdx pos key
  let cs := b.children.insertIdx (pos + 1) newChildPageID
  let mid := ks.length / 2
  ({ keys := ks.take mid, children := cs.take (mid + 1) },
   { keys := ks.drop (mid + 1), children := cs.drop (mid + 1) },
   ks.getD mid [])

/-! B+-tree over a page store, btree/btree.go and btree/meta.go.

The tree reads and writes pages through the buffer pool manager.  The
manager never evicts a valid frame in any execution (every valid frame
keeps a positive reference count forever, see the buffer-pool section
below), so as long as no operation fails with NoFreeBuffer the cached
pages are exactly the pages of the heap file and the tree operates on a
flat page store.  The claims about the tree quantify over successful
operations, which is the regime modelled here: the store is a list of
page contents indexed by page id, page ids are handed out sequentially by
the disk manager of a fresh heap file (disk/disk.go AllocatePage starting
from 0), and fetches and creates always succeed. -/

/-- Content of one page. -/
inductive PageData where
  /-- Meta page, btree/meta.go: the root page id. -/
  | meta (rootPageID : Nat)
  /-- Leaf node page. -/
  | leafN (l : Leaf)
  /-- Branch node page. -/
  | branchN (b : Branch)
  /-- Placeholder returned when fetching a page id that was never created;
  unreachable in the runs evaluated here. -/
  | free
deriving DecidableEq, Repr

/-- The page store: pages.getD i is the content of page id i. -/
structure DB where
  pages : List PageData
deriving DecidableEq, Repr

/-- FetchPage as seen by the tree. -/
def DB.fetch (db : DB) (pid : Nat) : PageData := db.pages.getD pid .free

/-- Writing back a page through its buffer. -/
def DB.store (db : DB) (pid : Nat) (pd : PageData) : DB := ⟨db.pages.set pid pd⟩

/-- CreatePage as seen by the tree: the new page id is the next sequential
id of the disk manager, which on a fresh heap file equals the number of
pages created so far. -/
def DB.createPage (db : DB) (pd : PageData) : DB × Nat :=
  (⟨db.pages ++ [pd]⟩, db.pages.length)

/-- btree.Create, btree/btree.go lines 70-97: create the meta page, create
the root page as an empty leaf, then write the root page id into the meta
page.  Returns the store and the meta page id (0 on a fresh file). -/
def btCreate : DB × Nat :=
  let m := DB.createPage ⟨[]⟩ (.meta 0)
  let r := m.1.createPage (.leafN leafEmpty)
  ((r.1.store m.2 (.meta r.2)), m.2)

/-- Errors surfaced by the modelled tree operations.  internalError stands
for the invalid-node-type error of the source together with the situations
(missing page, exhausted recursion fuel) in which the source would panic;
none of them is reachable in the runs evaluated here. -/
inductive BErr where
  | duplicateKey
  | internalError
deriving DecidableEq, Repr

/-- BTree.insertInternal, btree/btree.go lines 207-308.  The fuel bounds
the recursion depth (the source recursion is on the acyclic page graph);
callers pass more fuel than the height of any store they run on.  Returns
the updated store and the overflow (key, new child page id) pair, if any.

Leaf case: search; duplicate keys fail; a fitting pair is inserted in
place; otherwise the new sibling page is created, the old predecessorʼs
next pointer and the current leafʼs prev pointer are updated (lines
239-246), and SplitInsert rebuilds both leaves - re-initializing them,
which wipes the current leafʼs sibling pointers - after which only the new
leafʼs pointers are set (lines 256-258).

Branch case: descend; on child overflow try Insert, which places the new
child immediately to the right of the child that split; on lack of space
SplitInsert the branch.  The branch content read before the recursive call
is unchanged by it (the recursion touches only descendant pages and leaf
siblings, never this branch page), so writing back the updated value read
before the call matches the in-place mutation of the source. -/
def insertInternal (key value : Bytes) : Nat → DB → Nat → Except BErr (DB × Option (Bytes × Nat))
  | fuel, db, pid =>
    match db.fetch pid with
    | .leafN leaf =>
      let s := leaf.SearchSlotID key
      if s.2 then .error .duplicateKey
      else
        match leaf.insert s.1 key value with
        | some leaf2 => .ok (db.store pid (.leafN leaf2), none)
        | none =>
          let prevPageID := leaf.prevPageID
          let c := db.createPage (.leafN leafEmpty)
          let db1 := c.1
          let newPid := c.2
          let db2 :=
            match prevPageID with
            | some pp =>
              match db1.fetch pp with
              | .leafN pl => db1.store pp (.leafN { pl with nextPageID := some newPid })
              | _ => db1
            | none => db1
          let leafA := { leaf with prevPageID := some newPid }
          let sp := leafA.splitInsert key value
          let newLeaf := { sp.1 with nextPageID := some pid, prevPageID := prevPageID }
          let db3 := (db2.store pid (.leafN sp.2.1)).store newPid (.leafN newLeaf)
          .ok (db3, some (sp.2.2, newPid))
    | .branchN branch =>
      match fuel with
      | 0 => .error .internalError
      | fuel + 1 =>
        let childIdx := branch.searchChildIdx key
        let childPid := branch.childAt childIdx
        match insertInternal key value fuel db childPid with
        | .error e => .error e
        | .ok (db1, none) => .ok (db1, none)
        | .ok (db1, some (okey, ochild)) =>
          match branch.insert childIdx okey ochild with
          | some branch2 => .ok (db1.store pid (.branchN branch2), none)
          | none =>
            let c := db1.createPage (.branchN branchEmpty)
            let db2 := c.1
            let newPid := c.2
            let sp := branch.splitInsert okey ochild
            let db3 := (db2.store pid (.branchN sp.2.1)).store newPid (.branchN sp.1)
            .ok (db3, some (sp.2.2, newPid))
    | _ => .error .internalError

/-- BTree.Insert, btree/btree.go lines 161-198: read the root page id from
the meta page, run the recursive insert, and on overflow create a new root
branch initialized with (overflow key, overflow child, old root) and point
the meta page at it.  The fuel passed to the recursion exceeds the height
of the tree stored in db, since every level of the descent occupies at
least one distinct page. -/
def btInsert (db : DB) (metaPid : Nat) (key value : Bytes) : Except BErr DB :=
  match db.fetch metaPid with
  | .meta rootPid =>
    match insertInternal key value (db.pages.length + 1) db rootPid with
    | .error e => .error e
    | .ok (db1, none) => .ok db1
    | .ok (db1, some (okey, ochild)) =>
      let c := db1.createPage (.branchN (Branch.initRoot okey ochild rootPid))
      .ok (c.1.store metaPid (.meta c.2))
  | _ => .error .internalError

/-- Search criterion, btree/btree.go lines 16-39: scan from the start or
from a given key. -/
inductive SearchCrit where
  | start
  | key (k : Bytes)

/-- Search.childPageID, btree/btree.go lines 42-50: Start descends into
child 0, Key descends into the child returned by SearchChildIdx. -/
def critChildPageID (c : SearchCrit) (b : Branch) : Nat :=
  match c with
  | .start => b.childAt 0
  | .key k => b.childAt (b.searchChildIdx k)

/-- Search.tupleSlotID, btree/btree.go lines 54-62: Start yields slot 0,
Key yields the SearchSlotID result. -/
def critTupleSlotID (c : SearchCrit) (l : Leaf) : Nat × Bool :=
  match c with
  | .start => (0, false)
  | .key k => l.SearchSlotID k

/-- B-tree iterator, btree/btree.go lines 311-314: the current leaf page
and slot. -/
structure Iter where
  page : Nat
  slot : Nat
deriving DecidableEq, Repr

/-- Iter.get, btree/btree.go lines 317-323: the pair at the current slot,
none past the end of the leaf. -/
def Iter.get (db : DB) (it : Iter) : Option Pair :=
  match db.fetch it.page with
  | .leafN l =>
    if it.slot < l.numPairs then some (l.pairs.getD it.slot { key := [], value := [] })
    else none
  | _ => none

/-- Iter.advance, btree/btree.go lines 326-343: step the slot; when it
reaches num_pairs follow the next pointer if set, otherwise stay
exhausted. -/
def Iter.advance (db : DB) (it : Iter) : Iter :=
  let slot2 := it.slot + 1
  match db.fetch it.page with
  | .leafN l =>
    if slot2 < l.numPairs then { page := it.page, slot := slot2 }
    else
      match l.nextPageID with
      | some np => { page := np, slot := 0 }
      | none => { page := it.page, slot := slot2 }
  | _ => { page := it.page, slot := slot2 }

/-- Iter.Next, btree/btree.go lines 346-352: return the current pair, then
advance. -/
def Iter.next (db : DB) (it : Iter) : Option Pair × Iter := (it.get db, it.advance db)

/-- BTree.searchInternal, btree/btree.go lines 126-158: descend to a leaf,
take the criterion slot, and when that slot is num_pairs (the key is past
every key of this leaf) advance once so the iterator lands on the next
leaf or becomes exhausted.  Fuel as in insertInternal. -/
def searchInternal (c : SearchCrit) : Nat → DB → Nat → Except BErr Iter
  | fuel, db, pid =>
    match db.fetch pid with
    | .leafN l =>
      let slotID := (critTupleSlotID c l).1
      let it : Iter := { page := pid, slot := slotID }
      if l.numPairs = slotID then .ok (it.advance db) else .ok it
    | .branchN b =>
      match fuel with
      | 0 => .error .internalError
      | fuel + 1 => searchInternal c fuel db (critChildPageID c b)
    | _ => .error .internalError

/-- BTree.Search, btree/btree.go lines 117-123: fetch the root through the
meta page and search from it. -/
def btSearch (db : DB) (metaPid : Nat) (c : SearchCrit) : Except BErr Iter :=
  match db.fetch metaPid with
  | .meta rootPid => searchInternal c (db.pages.length + 1) db rootPid
  | _ => .error .internalError

/-! Concrete executions used to settle the claims about the tree. -/

/-- Create a tree on a fresh heap file (meta page id 0) and insert the
given key/value list in order, stopping at the first error. -/
def runInserts (kvs : List (Bytes × Bytes)) : Except BErr DB :=
  kvs.foldlM (fun db kv => btInsert db 0 kv.1 kv.2) btCreate.1

/-- Key of the pair produced by the first Next of Search(Key k), none when
the search fails or the iterator is immediately exhausted. -/
def searchFirstKey (db : DB) (k : Bytes) : Option Bytes :=
  match btSearch db 0 (.key k) with
  | .ok it => ((it.next db).1).map Pair.key
  | .error _ => none

/-- Keys produced by iterating Next from Search(Start) at most fuel
times. -/
def startScanKeys (db : DB) (fuel : Nat) : List Bytes :=
  match btSearch db 0 .start with
  | .ok it => go fuel it
  | .error _ => []
where
  /-- Collect pairs until Next yields none. -/
  go : Nat → Iter → List Bytes
    | 0, _ => []
    | n + 1, it =>
      match it.next db with
      | (some p, it2) => p.key :: go n it2
      | (none, _) => []

/-- A key occurs among the contents of the tree: some leaf page of the
store holds a pair with that key. -/
def treeHasKey (db : DB) (k : Bytes) : Bool :=
  db.pages.any fun pd =>
    match pd with
    | .leafN l => l.pairs.any (fun p => p.key == k)
    | _ => false

/-- Root page content: the page the meta page points at. -/
def rootPage (db : DB) : PageData :=
  match db.fetch 0 with
  | .meta rootPid => db.fetch rootPid
  | pd => pd

/-- The root page is a leaf node. -/
def rootIsLeaf (db : DB) : Bool :=
  match rootPage db with
  | .leafN _ => true
  | _ => false

/-- A 1340-byte value; three pairs with one-byte keys and this value fill a
leaf (3 x 1345 encoded bytes + 3 slots + 20 header bytes = 4061 of 4088
payload bytes) so that a fourth such insert forces a leaf split. -/
def vBig : Bytes := List.replicate 1340 0

/-- Insert keys d, f, h, b (bytes 100, 102, 104, 98), each with a 1340-byte
value, into a fresh tree.  The fourth insert splits the root leaf: the new
leaf gets the lower half b, d; the old leaf keeps f, h; the promoted
separator is d - the last key of the lower half. -/
def seq4 : List (Bytes × Bytes) := [([100], vBig), ([102], vBig), ([104], vBig), ([98], vBig)]

/-- Store after seq4 (total on the ok result; seq4 succeeds). -/
def db4 : DB := (runInserts seq4).toOption.getD btCreate.1

/-- seq4 followed by keys a and c (bytes 97, 99), which overfill the lower
leaf and split it a second time, now under the root branch. -/
def seq6 : List (Bytes × Bytes) := seq4 ++ [([97], vBig), ([99], vBig)]

/-- Store after seq6. -/
def db6 : DB := (runInserts seq6).toOption.getD btCreate.1

/-- Keys of the leaf stored at a page id, empty for other pages. -/
def leafKeysOfPage (db : DB) (pid : Nat) : List Bytes :=
  match db.fetch pid with
  | .leafN l => l.pairs.map Pair.key
  | _ => []

/-- Five-digit decimal rendering of n in ASCII, the digit block of the keys
key00000 .. key00099 and values value00000 .. value00099 of the
specification scenario (Go fmt.Sprintf with width five and zero
padding, for n below 100000). -/
def digitsOf (n : Nat) : List Nat :=
  [48 + n / 10000 % 10, 48 + n / 1000 % 10, 48 + n / 100 % 10, 48 + n / 10 % 10, 48 + n % 10]

/-- The byte string key00000 shifted to index i: the ASCII bytes of
"key" followed by five decimal digits. -/
def keyOf (i : Nat) : Bytes := [107, 101, 121] ++ digitsOf i

/-- The byte string value00000 shifted to index i. -/
def valOf (i : Nat) : Bytes := [118, 97, 108, 117, 101] ++ digitsOf i

/-- The 100 inserts of the specification scenario: key00000 .. key00099
with their corresponding values, in index order. -/
def seq100 : List (Bytes × Bytes) := (List.range 100).map (fun i => (keyOf i, valOf i))

/-- Store after seq100. -/
def db100 : DB := (runInserts seq100).toOption.getD btCreate.1

/-- Strict ascending order under the byte-lexicographic comparison. -/
def strictlyAscending : List Bytes → Bool
  | [] => true
  | [_] => true
  | a :: b :: rest =>
    match byteCompare a b with
    | .lt => strictlyAscending (b :: rest)
    | _ => false

/-- Iterate Iter.advance n times. -/
def iterAdvanceN (db : DB) (it : Iter) : Nat → Iter
  | 0 => it
  | n + 1 => (iterAdvanceN db it n).advance db

/-- A tuple holding one element of 2 ^ 16 bytes: the uint16 narrowing of
Tuple.Encode truncates its length field. -/
def bigTuple : Tuple := [List.replicate 65536 0]

/-! Buffer pool and manager, buffer/buffer.go, over the disk manager of
disk/disk.go.  Disk writes always succeed; a read fails - as Go's
io.ReadFull does with an end-of-file error - exactly when the heap file
does not cover the requested page.  Manager-driven writes are whole
4096-byte pages, so the file size is always a multiple of the page size
and a read either fails before touching the buffer or fills it
completely; sparse holes below the end of file read as zeros, which the
zero default of the store matches. -/

/-- Page contents on disk and in a buffer. -/
abbrev PageBytes := List Nat

/-- DiskManager, disk/disk.go: the next page id to allocate, the page
contents written so far, and the number of pages the heap file covers
(its size divided by the page size). -/
structure DiskMgr where
  nextPageID : Nat
  store : Nat → PageBytes
  filePages : Nat

/-- Disk manager opened on a fresh (empty) heap file: file size 0, so the
next page id starts at 0 and no page can be read yet. -/
def freshDisk : DiskMgr :=
  { nextPageID := 0, store := fun _ => List.replicate 4096 0, filePages := 0 }

/-- ReadPageData: none models the io.ReadFull end-of-file error on a page
the heap file does not cover. -/
def DiskMgr.readPage (d : DiskMgr) (pid : Nat) : Option PageBytes :=
  if pid < d.filePages then some (d.store pid) else none

/-- WritePageData: store the page and extend the file to its end. -/
def DiskMgr.writePage (d : DiskMgr) (pid : Nat) (data : PageBytes) : DiskMgr :=
  { d with store := fun q => if q = pid then data else d.store q,
           filePages := max d.filePages (pid + 1) }

/-- AllocatePage: return the next page id and advance it, no I/O. -/
def DiskMgr.allocatePage (d : DiskMgr) : Nat × DiskMgr :=
  (d.nextPageID, { d with nextPageID := d.nextPageID + 1 })

/-- Buffer, buffer/buffer.go lines 21-27. -/
structure GBuffer where
  pageID : Nat
  page : PageBytes
  isDirty : Bool
  refCount : Nat
  isValid : Bool
deriving Repr, DecidableEq

/-- Frame, buffer/buffer.go lines 31-34. -/
structure GFrame where
  usageCount : Nat
  buffer : GBuffer
deriving Repr, DecidableEq

/-- Zero value of a Go Buffer, as allocated by NewBufferPool. -/
def emptyBuffer : GBuffer :=
  { pageID := 0, page := List.replicate 4096 0, isDirty := false,
    refCount := 0, isValid := false }

/-- Zero frame of a fresh pool. -/
def defaultFrame : GFrame := { usageCount := 0, buffer := emptyBuffer }

/-- BufferPool, buffer/buffer.go lines 37-40: the frame array and the
clock-sweep cursor. -/
structure GPool where
  frames : List GFrame
  nextVictimID : Nat
deriving Repr

/-- NewBufferPool, lines 43-55. -/
def newBufferPool (poolSize : Nat) : GPool :=
  { frames := List.replicate poolSize defaultFrame, nextVictimID := 0 }

/-- Total usage count of the pool; together with the pool size it bounds
the number of iterations the clock sweep can perform. -/
def sumUsage (frames : List GFrame) : Nat := (frames.map (fun f => f.usageCount)).sum

/-- Clock-sweep loop of BufferPool.Evict, buffer/buffer.go lines 64-92.
Per step: a frame with usage count 0 is returned without advancing the
cursor; otherwise an unpinned frame has its usage count decremented and
resets the consecutive-pinned counter; otherwise the counter is
incremented and when it reaches the pool size the sweep fails, leaving the
cursor on the current frame.  Result: (victim or none, frames, cursor).
The fuel passed by GPool.evict strictly exceeds the iterations any sweep
can make (each iteration either lowers the total usage count or raises the
bounded consecutive-pinned counter), so the fuel-exhaustion fallback is
unreachable. -/
def evictLoop (size : Nat) : Nat → List GFrame → Nat → Nat → Option Nat × List GFrame × Nat
  | 0, frames, nv, _ => (none, frames, nv)
  | fuel + 1, frames, nv, cp =>
    let fr := frames.getD nv defaultFrame
    if fr.usageCount = 0 then (some nv, frames, nv)
    else if fr.buffer.refCount = 0 then
      evictLoop size fuel (frames.set nv { fr with usageCount := fr.usageCount - 1 })
        ((nv + 1) % size) 0
    else if size ≤ cp + 1 then (none, frames, nv)
    else evictLoop size fuel frames ((nv + 1) % size) (cp + 1)

/-- BufferPool.Evict: run the sweep from the stored cursor with the
consecutive-pinned counter at zero. -/
def GPool.evict (p : GPool) : Option Nat × GPool :=
  let r := evictLoop p.frames.length
    (sumUsage p.frames * (p.frames.length + 1) + p.frames.length + 1)
    p.frames p.nextVictimID 0
  (r.1, { frames := r.2.1, nextVictimID := r.2.2 })

/-- Errors of the buffer layer: ErrNoFreeBuffer (buffer/buffer.go line 11)
and a propagated disk I/O error, such as the end-of-file error of reading
a page the heap file does not cover. -/
inductive BufErr where
  | noFreeBuffer
  | ioError
deriving DecidableEq, Repr

/-- The error component of a manager result, if any. -/
def errOf {A : Type} : Except BufErr A → Option BufErr
  | .error e => some e
  | .ok _ => none

/-- BufferPoolManager, buffer/buffer.go lines 100-104: disk manager, pool
and page table.  The Go page table is a hash map; it is modelled as an
association list with first-match lookup whose update prepends after
erasing the key, the exact map semantics. -/
structure BPM where
  disk : DiskMgr
  pool : GPool
  pageTable : List (Nat × Nat)

/-- Map deletion on the association list. -/
def tableDelete (t : List (Nat × Nat)) (pid : Nat) : List (Nat × Nat) :=
  t.filter (fun kv => kv.1 != pid)

/-- NewBufferPoolManager on a fresh disk and pool: empty page table. -/
def initBPM (poolSize : Nat) : BPM :=
  { disk := freshDisk, pool := newBufferPool poolSize, pageTable := [] }

/-- BufferPoolManager.FetchPage, buffer/buffer.go lines 117-160.  Hit:
increment the frame usage count and the buffer reference count.  Miss:
evict; on NoFreeBuffer propagate the error, keeping the cursor and usage
mutations the sweep already made.  Otherwise write back a valid dirty
victim and read the page: the source retags the buffer (page id, clean,
valid) BEFORE ReadPageData and only sets the counts and updates the page
table after a successful read (lines 144-157), so a failing read returns
its error with the frame already marked valid, the counts still those of
the victim, the page bytes untouched (the read fails before filling
anything) and the page table untouched. -/
def fetchPage (m : BPM) (pid : Nat) : Except BufErr GBuffer × BPM :=
  match m.pageTable.lookup pid with
  | some bid =>
    let fr := m.pool.frames.getD bid defaultFrame
    let fr2 : GFrame :=
      { usageCount := fr.usageCount + 1,
        buffer := { fr.buffer with refCount := fr.buffer.refCount + 1 } }
    (.ok fr2.buffer,
      { m with pool := { m.pool with frames := m.pool.frames.set bid fr2 } })
  | none =>
    match m.pool.evict with
    | (none, pool2) => (.error .noFreeBuffer, { m with pool := pool2 })
    | (some bid, pool2) =>
      let fr := pool2.frames.getD bid defaultFrame
      let evictPid := fr.buffer.pageID
      let wasValid := fr.buffer.isValid
      let disk2 := if wasValid && fr.buffer.isDirty
        then m.disk.writePage evictPid fr.buffer.page else m.disk
      match disk2.readPage pid with
      | none =>
        let frames2 := pool2.frames.set bid
          { usageCount := fr.usageCount,
            buffer := { pageID := pid, page := fr.buffer.page, isDirty := false,
                        refCount := fr.buffer.refCount, isValid := true } }
        (.error .ioError,
          { disk := disk2,
            pool := { frames := frames2, nextVictimID := pool2.nextVictimID },
            pageTable := m.pageTable })
      | some pageData =>
        let buf2 : GBuffer :=
          { pageID := pid, page := pageData,
            isDirty := false, refCount := 1, isValid := true }
        let frames2 := pool2.frames.set bid { usageCount := 1, buffer := buf2 }
        let table2 := if wasValid then tableDelete m.pageTable evictPid else m.pageTable
        (.ok buf2,
          { disk := disk2,
            pool := { frames := frames2, nextVictimID := pool2.nextVictimID },
            pageTable := (pid, bid) :: table2 })

/-- BufferPoolManager.CreatePage, buffer/buffer.go lines 163-199: like a
fetch miss, but the page id is freshly allocated, the page is zero-filled
in memory without a disk read (so no read can fail), and the buffer starts
dirty. -/
def createPage (m : BPM) : Except BufErr GBuffer × BPM :=
  match m.pool.evict with
  | (none, pool2) => (.error .noFreeBuffer, { m with pool := pool2 })
  | (some bid, pool2) =>
    let fr := pool2.frames.getD bid defaultFrame
    let evictPid := fr.buffer.pageID
    let wasValid := fr.buffer.isValid
    let disk2 := if wasValid && fr.buffer.isDirty
      then m.disk.writePage evictPid fr.buffer.page else m.disk
    let a := disk2.allocatePage
    let buf2 : GBuffer :=
      { pageID := a.1, page := List.replicate 4096 0,
        isDirty := true, refCount := 1, isValid := true }
    let frames2 := pool2.frames.set bid { usageCount := 1, buffer := buf2 }
    let table2 := if wasValid then tableDelete m.pageTable evictPid else m.pageTable
    (.ok buf2,
      { disk := a.2, pool := { frames := frames2, nextVictimID := pool2.nextVictimID },
        pageTable := (a.1, bid) :: table2 })

/-- BufferPoolManager.Flush, buffer/buffer.go lines 202-211: write the page
of every page-table entry to disk and clear its dirty flag (the Go map
iteration order is arbitrary; the writes touch distinct page ids and each
frame is cleared once, so the list order chosen here yields the same
state), then sync. -/
def flushStep (acc : BPM) (kv : Nat × Nat) : BPM :=
  let fr := acc.pool.frames.getD kv.2 defaultFrame
  { acc with
    disk := acc.disk.writePage kv.1 fr.buffer.page,
    pool := { acc.pool with
      frames := acc.pool.frames.set kv.2
        { fr with buffer := { fr.buffer with isDirty := false } } } }

def flushPages (m : BPM) : BPM := m.pageTable.foldl flushStep m

/-- One manager operation of an execution. -/
inductive MOp where
  | fetch (pid : Nat)
  | create
  | flush

/-- State reached after one operation (the returned buffer or error is
dropped; a failed fetch or create keeps the mutations made before the
failure, as in the source). -/
def applyOp (m : BPM) : MOp → BPM
  | .fetch pid => (fetchPage m pid).2
  | .create => (createPage m).2
  | .flush => flushPages m

/-- State reached after a list of operations. -/
def runOps (m : BPM) (ops : List MOp) : BPM := ops.foldl applyOp m

/-- Every frame of the pool holds a valid page. -/
def allValid (m : BPM) : Bool := m.pool.frames.all (fun f => f.buffer.isValid)

/-- Every frame of the pool is pinned: its buffer has a positive reference
count. -/
def allPinnedB (m : BPM) : Bool := m.pool.frames.all (fun f => f.buffer.refCount != 0)

/-- Reference count of the buffer in frame i. -/
def refAt (m : BPM) (i : Nat) : Nat := (m.pool.frames.getD i defaultFrame).buffer.refCount

/-- A frame index at which the sweep can make progress: usage already zero
or unpinned. -/
def unpinnedAt (frames : List GFrame) (j : Nat) : Prop :=
  (frames.getD j defaultFrame).usageCount = 0 ∨
  (frames.getD j defaultFrame).buffer.refCount = 0

/-- Pool used by the witness of claim C7: frame 0 is pinned and in use,
frame 1 has usage count zero. -/
def witnessPool : GPool :=
  { frames := [{ usageCount := 2, buffer := { emptyBuffer with refCount := 1 } },
               { usageCount := 0, buffer := { emptyBuffer with refCount := 5 } }],
    nextVictimID := 0 }

/-! Reachability invariant of the buffer pool manager. -/

/-- The usage count, reference count and validity of a frame. -/
def frameCore (f : GFrame) : Nat × Nat × Bool :=
  (f.usageCount, f.buffer.refCount, f.buffer.isValid)

/-- Frame invariant of reachable pools: a frame is pinned exactly when it
is in use.  A reference count becomes positive only together with a
positive usage count (a successful refill or a cache hit; the read-error
path leaves both counts of the unused victim at zero), and the sweep
decrements usage counts only on unpinned frames.  Validity does NOT imply
a positive reference count: the read-error path of FetchPage marks the
victim valid while leaving its counts at zero. -/
def InvFrames (frames : List GFrame) : Prop :=
  ∀ i, i < frames.length →
    ((frames.getD i defaultFrame).buffer.refCount = 0 →
      (frames.getD i defaultFrame).usageCount = 0) ∧
    ((frames.getD i defaultFrame).usageCount = 0 →
      (frames.getD i defaultFrame).buffer.refCount = 0)

/-- Reachability invariant of the manager. -/
def Inv (m : BPM) : Prop :=
  0 < m.pool.frames.length ∧
  m.pool.nextVictimID < m.pool.frames.length ∧
  InvFrames m.pool.frames

/-- Preservation facts for one operation: the invariant is kept, the pool
size is unchanged, and no reference count decreases. -/
def opFacts (m m2 : BPM) : Prop :=
  Inv m2 ∧ m2.pool.frames.length = m.pool.frames.length ∧
  (∀ i, refAt m i ≤ refAt m2 i)

/-! Theorems settling the claims. -/

set_option maxRecDepth 4000000

/-! Helper lemmas on list indexing. -/

theorem getD_set_eq {a : Type} (l : List a) (i : Nat) (x d : a) (h : i < l.length) :
    (l.set i x).getD i d = x := by
  rw [List.getD_eq_getElem?_getD, List.getElem?_set]
  simp [h]

theorem getD_set_ne {a : Type} (l : List a) (i j : Nat) (x d : a) (h : j ≠ i) :
    (l.set i x).getD j d = l.getD j d := by
  rw [List.getD_eq_getElem?_getD, List.getD_eq_getElem?_getD,
    List.getElem?_set_ne (fun he => h he.symm)]

theorem getD_set_out {a : Type} (l : List a) (i : Nat) (x d : a) (h : l.length ≤ i) :
    (l.set i x).getD i d = d := by
  rw [List.getD_eq_getElem?_getD, List.getElem?_set]
  simp [Nat.not_lt.mpr h]

theorem getD_mem {a : Type} (l : List a) (i : Nat) (d : a) (h : i < l.length) :
    l.getD i d ∈ l := by
  rw [List.getD_eq_getElem?_getD, List.getElem?_eq_getElem h]
  exact List.getElem_mem h

theorem getD_eq_default {a : Type} (l : List a) (i : Nat) (d : a) (h : l.length ≤ i) :
    l.getD i d = d := by
  rw [List.getD_eq_getElem?_getD, List.getElem?_eq_none h]
  rfl

theorem sumUsage_set (l : List GFrame) (i : Nat) (f : GFrame) (h : i < l.length) :
    sumUsage (l.set i f) + (l.getD i defaultFrame).usageCount
      = sumUsage l + f.usageCount := by
  induction l generalizing i with
  | nil => simp at h
  | cons x xs ih =>
    cases i with
    | zero =>
      simp only [List.set, sumUsage, List.map_cons, List.sum_cons, List.getD_cons_zero]
      omega
    | succ i =>
      simp only [List.set, sumUsage, List.map_cons, List.sum_cons, List.getD_cons_succ]
      have h2 := ih i (by simpa using h)
      simp only [sumUsage] at h2
      omega

/-! Lemmas about the clock sweep. -/

/-- The sweep leaves the cursor inside the pool. -/
theorem evictLoop_cursor_lt (size : Nat) (h0 : 0 < size) (fuel : Nat) :
    ∀ (frames : List GFrame) (nv cp : Nat), nv < size →
      (evictLoop size fuel frames nv cp).2.2 < size := by
  induction fuel with
  | zero => intro frames nv cp hnv; simpa [evictLoop] using hnv
  | succ fuel ih =>
    intro frames nv cp hnv
    simp only [evictLoop, ← List.getD_eq_getElem?_getD]
    by_cases h1 : (frames.getD nv defaultFrame).usageCount = 0
    · rw [if_pos h1]
      exact hnv
    · rw [if_neg h1]
      by_cases h2 : (frames.getD nv defaultFrame).buffer.refCount = 0
      · rw [if_pos h2]
        exact ih _ _ 0 (Nat.mod_lt _ h0)
      · rw [if_neg h2]
        by_cases h3 : size ≤ cp + 1
        · rw [if_pos h3]
          exact hnv
        · rw [if_neg h3]
          exact ih _ _ (cp + 1) (Nat.mod_lt _ h0)

/-- A successful sweep returns a frame whose usage count is zero in the
final frame array, and leaves the cursor exactly on the returned index. -/
theorem evictLoop_success_props (size fuel : Nat) :
    ∀ (frames : List GFrame) (nv cp bid : Nat) (frames2 : List GFrame) (nv2 : Nat),
      evictLoop size fuel frames nv cp = (some bid, frames2, nv2) →
      (frames2.getD bid defaultFrame).usageCount = 0 ∧ nv2 = bid := by
  induction fuel with
  | zero =>
    intro frames nv cp bid frames2 nv2 h
    simp [evictLoop] at h
  | succ fuel ih =>
    intro frames nv cp bid frames2 nv2 h
    simp only [evictLoop, ← List.getD_eq_getElem?_getD] at h
    by_cases h1 : (frames.getD nv defaultFrame).usageCount = 0
    · rw [if_pos h1] at h
      obtain ⟨hb, hf, hn⟩ : some nv = some bid ∧ frames = frames2 ∧ nv = nv2 := by
        simpa [Prod.ext_iff] using h
      obtain rfl : nv = bid := by simpa using hb
      exact ⟨hf ▸ h1, hn.symm⟩
    · rw [if_neg h1] at h
      by_cases h2 : (frames.getD nv defaultFrame).buffer.refCount = 0
      · rw [if_pos h2] at h
        exact ih _ _ _ _ _ _ h
      · rw [if_neg h2] at h
        by_cases h3 : size ≤ cp + 1
        · rw [if_pos h3] at h
          simp [Prod.ext_iff] at h
        · rw [if_neg h3] at h
          exact ih _ _ _ _ _ _ h

/-- When every frame is pinned and in use, the sweep fails. -/
theorem evictLoop_none_of_allPinned (size fuel : Nat) :
    ∀ (frames : List GFrame) (nv cp : Nat),
      size = frames.length →
      (∀ f ∈ frames, 1 ≤ f.usageCount ∧ 1 ≤ f.buffer.refCount) →
      nv < size →
      (evictLoop size fuel frames nv cp).1 = none := by
  induction fuel with
  | zero => intros; simp [evictLoop]
  | succ fuel ih =>
    intro frames nv cp hsz hall hnv
    obtain ⟨hu, hr⟩ := hall _ (getD_mem frames nv defaultFrame (hsz ▸ hnv))
    simp only [evictLoop, ← List.getD_eq_getElem?_getD]
    rw [if_neg (by omega), if_neg (by omega)]
    by_cases h3 : size ≤ cp + 1
    · rw [if_pos h3]
    · rw [if_neg h3]
      exact ih frames _ (cp + 1) hsz hall (Nat.mod_lt _ (by omega))

/-- Every index below size lies in the full window ahead of any cursor
below size. -/
theorem mod_window_exists (size v j : Nat) (h0 : 0 < size) (hv : v < size) (hj : j < size) :
    ∃ k, k < size ∧ j = (v + k) % size := by
  refine ⟨(j + size - v) % size, Nat.mod_lt _ h0, ?_⟩
  rw [Nat.add_mod_mod]
  have he : v + (j + size - v) = j + size := by omega
  rw [he, Nat.add_mod_right, Nat.mod_eq_of_lt hj]

/-- When some frame is unpinned or unused, the sweep succeeds.  The window
hypothesis states that every such frame lies within the iterations the
consecutive-pinned counter still allows; at the start of a sweep the
counter is zero and the window is the whole pool. -/
theorem evictLoop_isSome_of_unpinned (size : Nat) (h0 : 0 < size) (fuel : Nat) :
    ∀ (frames : List GFrame) (nv cp : Nat),
      size = frames.length → nv < size →
      (∀ j, j < size → unpinnedAt frames j → ∃ k, k < size - cp ∧ j = (nv + k) % size) →
      (∃ j, j < size ∧ unpinnedAt frames j) →
      sumUsage frames * (size + 1) + (size - cp) < fuel →
      ((evictLoop size fuel frames nv cp).1).isSome = true := by
  induction fuel with
  | zero =>
    intro frames nv cp _ _ _ _ hfuel
    omega
  | succ fuel ih =>
    intro frames nv cp hsz hnv hwin hwit hfuel
    simp only [evictLoop, ← List.getD_eq_getElem?_getD]
    by_cases h1 : (frames.getD nv defaultFrame).usageCount = 0
    · rw [if_pos h1]
      rfl
    · rw [if_neg h1]
      by_cases h2 : (frames.getD nv defaultFrame).buffer.refCount = 0
      · rw [if_pos h2]
        have hlt : nv < frames.length := hsz ▸ hnv
        have hsu := sumUsage_set frames nv
          { usageCount := (frames.getD nv defaultFrame).usageCount - 1,
            buffer := (frames.getD nv defaultFrame).buffer } hlt
        dsimp only at hsu
        apply ih
        · rw [List.length_set]
          exact hsz
        · exact Nat.mod_lt _ h0
        · intro j hj _
          obtain ⟨k, hk, hke⟩ := mod_window_exists size ((nv + 1) % size) j h0
            (Nat.mod_lt _ h0) hj
          exact ⟨k, by omega, hke⟩
        · refine ⟨nv, hnv, Or.inr ?_⟩
          rw [getD_set_eq _ _ _ _ hlt]
          exact h2
        · have heq : sumUsage frames = sumUsage (frames.set nv
              { usageCount := (frames.getD nv defaultFrame).usageCount - 1,
                buffer := (frames.getD nv defaultFrame).buffer }) + 1 := by
            omega
          rw [heq, Nat.succ_mul] at hfuel
          omega
      · rw [if_neg h2]
        by_cases h3 : size ≤ cp + 1
        · exfalso
          obtain ⟨j, hj, hun⟩ := hwit
          obtain ⟨k, hk, hjeq⟩ := hwin j hj hun
          have hk0 : k = 0 := by omega
          rw [hk0, Nat.add_zero, Nat.mod_eq_of_lt hnv] at hjeq
          rw [hjeq] at hun
          rcases hun with h | h
          · exact h1 h
          · exact h2 h
        · rw [if_neg h3]
          apply ih frames _ (cp + 1) hsz (Nat.mod_lt _ h0)
          · intro j hj hun
            obtain ⟨k, hk, hjeq⟩ := hwin j hj hun
            have hkne : k ≠ 0 := by
              intro hk0
              rw [hk0, Nat.add_zero, Nat.mod_eq_of_lt hnv] at hjeq
              rw [hjeq] at hun
              rcases hun with h | h
              · exact h1 h
              · exact h2 h
            refine ⟨k - 1, by omega, ?_⟩
            rw [Nat.mod_add_mod, hjeq]
            congr 1
            omega
          · exact hwit
          · omega

/-! Pool-level lemmas and the clock-sweep claim. -/

/-- Unfolding of GPool.evict as the sweep with its fuel. -/
theorem evict_def (p : GPool) :
    p.evict = ((evictLoop p.frames.length
      (sumUsage p.frames * (p.frames.length + 1) + p.frames.length + 1)
      p.frames p.nextVictimID 0).1,
      ⟨(evictLoop p.frames.length
        (sumUsage p.frames * (p.frames.length + 1) + p.frames.length + 1)
        p.frames p.nextVictimID 0).2.1,
       (evictLoop p.frames.length
        (sumUsage p.frames * (p.frames.length + 1) + p.frames.length + 1)
        p.frames p.nextVictimID 0).2.2⟩) := rfl

/-- Claim C7.  For a pool whose cursor is inside the frame array (as in
every reachable pool): when Evict returns index bid, the frame at bid has
usage count zero in the resulting pool and the cursor is left exactly at
bid (not advanced); and Evict fails with NoFreeBuffer exactly when every
frame of the pool is in use (positive usage count) and pinned (positive
reference count) - the state in which the sweep meets pool-size
consecutive pinned frames with no intervening unpinned one. -/
theorem claim_C7_clock_sweep (p : GPool) (bid : Nat)
    (h0 : 0 < p.frames.length) (hnv : p.nextVictimID < p.frames.length) :
    ((p.evict.1 = some bid) →
      ((p.evict.2.frames.getD bid defaultFrame).usageCount = 0 ∧
        p.evict.2.nextVictimID = bid)) ∧
    (p.evict.1 = none ↔ ∀ f ∈ p.frames, 1 ≤ f.usageCount ∧ 1 ≤ f.buffer.refCount) := by
  constructor
  · intro h
    rw [evict_def] at h ⊢
    simp only at h ⊢
    have hprops := evictLoop_success_props p.frames.length
      (sumUsage p.frames * (p.frames.length + 1) + p.frames.length + 1)
      p.frames p.nextVictimID 0 bid
      (evictLoop p.frames.length
        (sumUsage p.frames * (p.frames.length + 1) + p.frames.length + 1)
        p.frames p.nextVictimID 0).2.1
      (evictLoop p.frames.length
        (sumUsage p.frames * (p.frames.length + 1) + p.frames.length + 1)
        p.frames p.nextVictimID 0).2.2
      (by rw [← h])
    exact hprops
  · rw [evict_def]
    simp only
    constructor
    · intro h
      by_contra hc
      push_neg at hc
      obtain ⟨f, hf, hor⟩ := hc
      obtain ⟨i, hi, hieq⟩ := List.getElem_of_mem hf
      have hgd : p.frames.getD i defaultFrame = f := by
        rw [List.getD_eq_getElem?_getD, List.getElem?_eq_getElem hi]
        simpa using hieq
      have hun : unpinnedAt p.frames i := by
        unfold unpinnedAt
        rw [hgd]
        by_cases hu : 1 ≤ f.usageCount
        · exact Or.inr (by omega)
        · exact Or.inl (by omega)
      have hsome := evictLoop_isSome_of_unpinned p.frames.length h0
        (sumUsage p.frames * (p.frames.length + 1) + p.frames.length + 1)
        p.frames p.nextVictimID 0 rfl hnv
        (fun j hj _ => by
          obtain ⟨k, hk, hke⟩ := mod_window_exists p.frames.length p.nextVictimID j h0 hnv hj
          exact ⟨k, by omega, hke⟩)
        ⟨i, hi, hun⟩
        (by omega)
      rw [h] at hsome
      simp at hsome
    · intro hall
      exact evictLoop_none_of_allPinned _ _ _ _ _ rfl hall hnv

/-- Witness for claim C7 at witnessPool: the sweep skips the pinned frame
0 and returns frame 1. -/
theorem claim_C7_clock_sweep_witness :
    witnessPool.evict.1 = some 1 ∧
    ((witnessPool.evict.1 = some 1 →
      ((witnessPool.evict.2.frames.getD 1 defaultFrame).usageCount = 0 ∧
        witnessPool.evict.2.nextVictimID = 1)) ∧
     (witnessPool.evict.1 = none ↔
       ∀ f ∈ witnessPool.frames, 1 ≤ f.usageCount ∧ 1 ≤ f.buffer.refCount)) :=
  ⟨by decide, claim_C7_clock_sweep witnessPool 1 (by decide) (by decide)⟩

/-! Invariant machinery toward the pool-starvation claim. -/

/-- Index form of allPinnedB. -/
theorem allPinnedB_iff (m : BPM) :
    allPinnedB m = true ↔
    ∀ i, i < m.pool.frames.length →
      1 ≤ (m.pool.frames.getD i defaultFrame).buffer.refCount := by
  unfold allPinnedB
  rw [List.all_eq_true]
  constructor
  · intro h i hi
    have hgd : m.pool.frames.getD i defaultFrame = m.pool.frames[i] := by
      rw [List.getD_eq_getElem?_getD, List.getElem?_eq_getElem hi]
      rfl
    rw [hgd]
    have := h _ (List.getElem_mem hi)
    simp only [bne_iff_ne, ne_eq] at this
    omega
  · intro h f hf
    obtain ⟨i, hi, hieq⟩ := List.getElem_of_mem hf
    have hgd : m.pool.frames.getD i defaultFrame = f := by
      rw [List.getD_eq_getElem?_getD, List.getElem?_eq_getElem hi]
      simpa using hieq
    have := h i hi
    rw [hgd] at this
    simp only [bne_iff_ne, ne_eq]
    omega

/-- Member form of the all-pinned-and-in-use condition, from the frame
invariant plus positivity of every reference count. -/
theorem allPinned_of_invFrames (frames : List GFrame)
    (hInv : InvFrames frames)
    (hp : ∀ i, i < frames.length → 1 ≤ (frames.getD i defaultFrame).buffer.refCount) :
    ∀ f ∈ frames, 1 ≤ f.usageCount ∧ 1 ≤ f.buffer.refCount := by
  intro f hf
  obtain ⟨i, hi, hieq⟩ := List.getElem_of_mem hf
  have hgd : frames.getD i defaultFrame = f := by
    rw [List.getD_eq_getElem?_getD, List.getElem?_eq_getElem hi]
    simpa using hieq
  have h1 := hp i hi
  have h2 := (hInv i hi).2
  rw [hgd] at h1 h2
  by_cases hu : f.usageCount = 0
  · have := h2 hu
    omega
  · exact ⟨by omega, h1⟩

/-- Under the frame invariant the sweep never decrements anything: a
decrement needs an unpinned frame that is still in use, which the
invariant rules out. -/
theorem evictLoop_frames_eq (size fuel : Nat) :
    ∀ (frames : List GFrame) (nv cp : Nat), InvFrames frames →
      (evictLoop size fuel frames nv cp).2.1 = frames := by
  induction fuel with
  | zero => intros; simp [evictLoop]
  | succ fuel ih =>
    intro frames nv cp hInv
    simp only [evictLoop, ← List.getD_eq_getElem?_getD]
    by_cases h1 : (frames.getD nv defaultFrame).usageCount = 0
    · rw [if_pos h1]
    · rw [if_neg h1]
      by_cases h2 : (frames.getD nv defaultFrame).buffer.refCount = 0
      · exfalso
        by_cases hrange : nv < frames.length
        · exact h1 ((hInv nv hrange).1 h2)
        · have : frames.getD nv defaultFrame = defaultFrame :=
            getD_eq_default _ _ _ (by omega)
          rw [this] at h1
          exact h1 rfl
      · rw [if_neg h2]
        by_cases h3 : size ≤ cp + 1
        · rw [if_pos h3]
        · rw [if_neg h3]
          exact ih frames _ (cp + 1) hInv

/-- Facts about a successful eviction from a state satisfying the
invariant: the frames are unchanged, the victim index is in range and is
where the cursor stops, and the victim frame is unused and unpinned. -/
theorem evict_victim_facts (p : GPool) (bid : Nat) (pool2 : GPool)
    (h0 : 0 < p.frames.length) (hnv : p.nextVictimID < p.frames.length)
    (hInv : InvFrames p.frames)
    (h : p.evict = (some bid, pool2)) :
    pool2.frames = p.frames ∧ bid < p.frames.length ∧ pool2.nextVictimID = bid ∧
    (p.frames.getD bid defaultFrame).usageCount = 0 ∧
    (p.frames.getD bid defaultFrame).buffer.refCount = 0 := by
  rw [evict_def] at h
  obtain ⟨h1, h2⟩ : (evictLoop p.frames.length
      (sumUsage p.frames * (p.frames.length + 1) + p.frames.length + 1)
      p.frames p.nextVictimID 0).1 = some bid ∧
      pool2 = ⟨(evictLoop p.frames.length
        (sumUsage p.frames * (p.frames.length + 1) + p.frames.length + 1)
        p.frames p.nextVictimID 0).2.1,
        (evictLoop p.frames.length
        (sumUsage p.frames * (p.frames.length + 1) + p.frames.length + 1)
        p.frames p.nextVictimID 0).2.2⟩ := by
    have ha := congrArg Prod.fst h
    have hb := congrArg Prod.snd h
    simp only at ha hb
    exact ⟨ha, hb.symm⟩
  have hfr := evictLoop_frames_eq p.frames.length
    (sumUsage p.frames * (p.frames.length + 1) + p.frames.length + 1)
    p.frames p.nextVictimID 0 hInv
  have hprops := evictLoop_success_props p.frames.length
    (sumUsage p.frames * (p.frames.length + 1) + p.frames.length + 1)
    p.frames p.nextVictimID 0 bid _ _
    (by rw [← h1])
  have hcur := evictLoop_cursor_lt p.frames.length h0
    (sumUsage p.frames * (p.frames.length + 1) + p.frames.length + 1)
    p.frames p.nextVictimID 0 hnv
  obtain ⟨husage, hnv2⟩ := hprops
  rw [hfr] at husage
  have hbid : bid < p.frames.length := by
    rw [← hnv2]
    exact hcur
  have href : (p.frames.getD bid defaultFrame).buffer.refCount = 0 :=
    (hInv bid hbid).2 husage
  refine ⟨?_, hbid, ?_, husage, href⟩
  · rw [h2]
    exact hfr
  · rw [h2]
    exact hnv2

/-- A failed eviction from an invariant state changes nothing but the
cursor, which stays in range. -/
theorem evict_err_facts (p : GPool) (pool2 : GPool)
    (h0 : 0 < p.frames.length) (hnv : p.nextVictimID < p.frames.length)
    (hInv : InvFrames p.frames)
    (h : p.evict = (none, pool2)) :
    pool2.frames = p.frames ∧ pool2.nextVictimID < p.frames.length := by
  rw [evict_def] at h
  have h2 := congrArg Prod.snd h
  simp only at h2
  have hfr := evictLoop_frames_eq p.frames.length
    (sumUsage p.frames * (p.frames.length + 1) + p.frames.length + 1)
    p.frames p.nextVictimID 0 hInv
  have hcur := evictLoop_cursor_lt p.frames.length h0
    (sumUsage p.frames * (p.frames.length + 1) + p.frames.length + 1)
    p.frames p.nextVictimID 0 hnv
  rw [← h2]
  exact ⟨hfr, hcur⟩

/-- Replacing only the pool by one with the same frames and an in-range
cursor preserves everything. -/
theorem pool_swap_opFacts (m : BPM) (pool2 : GPool) (hInv : Inv m)
    (hframes : pool2.frames = m.pool.frames)
    (hnv2 : pool2.nextVictimID < m.pool.frames.length) :
    opFacts m { m with pool := pool2 } := by
  obtain ⟨hlen, hnv, hfr⟩ := hInv
  refine ⟨⟨?_, ?_, ?_⟩, ?_, ?_⟩
  · dsimp only
    rw [hframes]
    exact hlen
  · dsimp only
    rw [hframes]
    exact hnv2
  · dsimp only
    rw [hframes]
    exact hfr
  · dsimp only
    rw [hframes]
  · intro i
    unfold refAt
    dsimp only
    rw [hframes]

/-- Shared argument for the refill performed by a successful fetch miss
and by CreatePage: overwriting the unused victim frame with a fresh pinned
frame preserves the invariant and cannot lower any reference count (the
victim was unpinned by the invariant); the disk and page table play no
role in the invariant and are arbitrary. -/
theorem refill_opFacts (m : BPM) (bid : Nat) (newBuf : GBuffer)
    (newDisk : DiskMgr) (newTable : List (Nat × Nat)) (hInv : Inv m)
    (hbid : bid < m.pool.frames.length)
    (husage : (m.pool.frames.getD bid defaultFrame).usageCount = 0)
    (href2 : newBuf.refCount = 1) :
    opFacts m
      { disk := newDisk,
        pool := { frames := m.pool.frames.set bid { usageCount := 1, buffer := newBuf },
                  nextVictimID := bid },
        pageTable := newTable } := by
  obtain ⟨hlen, hnv, hfr⟩ := hInv
  have href0 : (m.pool.frames.getD bid defaultFrame).buffer.refCount = 0 :=
    (hfr bid hbid).2 husage
  refine ⟨⟨?_, ?_, ?_⟩, ?_, ?_⟩
  · simpa using hlen
  · simpa using hbid
  · intro i hi
    dsimp only at hi ⊢
    rw [List.length_set] at hi
    by_cases hib : i = bid
    · rw [hib, getD_set_eq _ _ _ _ hbid]
      dsimp only
      rw [href2]
      exact ⟨fun h => absurd h (by omega), fun h => absurd h (by omega)⟩
    · rw [getD_set_ne _ _ _ _ _ hib]
      exact hfr i hi
  · dsimp only
    rw [List.length_set]
  · intro i
    unfold refAt
    dsimp only
    by_cases hib : i = bid
    · rw [hib, getD_set_eq _ _ _ _ hbid]
      dsimp only
      rw [href0, href2]
      omega
    · rw [getD_set_ne _ _ _ _ _ hib]

/-- The read-error path of a fetch miss: the source has already retagged
the victim buffer when ReadPageData fails, but the counts - both zero for
the unused victim - and the page table are untouched, so the invariant and
the reference counts are preserved. -/
theorem readfail_opFacts (m : BPM) (bid : Nat) (pid : Nat)
    (newDisk : DiskMgr) (hInv : Inv m)
    (hbid : bid < m.pool.frames.length)
    (husage : (m.pool.frames.getD bid defaultFrame).usageCount = 0) :
    opFacts m
      { disk := newDisk,
        pool := { frames := m.pool.frames.set bid
                    { usageCount := (m.pool.frames.getD bid defaultFrame).usageCount,
                      buffer := { pageID := pid,
                                  page := (m.pool.frames.getD bid defaultFrame).buffer.page,
                                  isDirty := false,
                                  refCount := (m.pool.frames.getD bid defaultFrame).buffer.refCount,
                                  isValid := true } },
                  nextVictimID := bid },
        pageTable := m.pageTable } := by
  obtain ⟨hlen, hnv, hfr⟩ := hInv
  have href0 : (m.pool.frames.getD bid defaultFrame).buffer.refCount = 0 :=
    (hfr bid hbid).2 husage
  refine ⟨⟨?_, ?_, ?_⟩, ?_, ?_⟩
  · simpa using hlen
  · simpa using hbid
  · intro i hi
    dsimp only at hi ⊢
    rw [List.length_set] at hi
    by_cases hib : i = bid
    · rw [hib, getD_set_eq _ _ _ _ hbid]
      dsimp only
      rw [husage, href0]
      exact ⟨fun _ => rfl, fun _ => rfl⟩
    · rw [getD_set_ne _ _ _ _ _ hib]
      exact hfr i hi
  · dsimp only
    rw [List.length_set]
  · intro i
    unfold refAt
    dsimp only
    by_cases hib : i = bid
    · rw [hib, getD_set_eq _ _ _ _ hbid]
    · rw [getD_set_ne _ _ _ _ _ hib]

/-- A cache hit pins the hit frame once more and preserves everything. -/
theorem hit_opFacts (m : BPM) (bid : Nat) (hInv : Inv m) :
    opFacts m
      { m with
        pool :=
          { m.pool with
            frames :=
              m.pool.frames.set bid
                { usageCount := (m.pool.frames.getD bid defaultFrame).usageCount + 1,
                  buffer :=
                    { (m.pool.frames.getD bid defaultFrame).buffer with
                      refCount :=
                        (m.pool.frames.getD bid defaultFrame).buffer.refCount + 1 } } } } := by
  obtain ⟨hlen, hnv, hfr⟩ := hInv
  refine ⟨⟨?_, ?_, ?_⟩, ?_, ?_⟩
  · simpa using hlen
  · simpa using hnv
  · intro i hi
    dsimp only at hi ⊢
    rw [List.length_set] at hi
    by_cases hib : i = bid
    · have hbl : bid < m.pool.frames.length := hib ▸ hi
      rw [hib, getD_set_eq _ _ _ _ hbl]
      dsimp only
      exact ⟨fun h => absurd h (by omega), fun h => absurd h (by omega)⟩
    · rw [getD_set_ne _ _ _ _ _ hib]
      exact hfr i hi
  · dsimp only
    rw [List.length_set]
  · intro i
    unfold refAt
    dsimp only
    by_cases hib : i = bid
    · rw [hib]
      by_cases hbl : bid < m.pool.frames.length
      · rw [getD_set_eq _ _ _ _ hbl]
        dsimp only
        omega
      · rw [getD_set_out _ _ _ _ (Nat.le_of_not_lt hbl),
          getD_eq_default _ _ _ (Nat.le_of_not_lt hbl)]
    · rw [getD_set_ne _ _ _ _ _ hib]

/-- One flush step only clears a dirty flag: table, cursor, length and the
frame cores are unchanged. -/
theorem flushStep_core (acc : BPM) (kv : Nat × Nat) :
    (flushStep acc kv).pageTable = acc.pageTable ∧
    (flushStep acc kv).pool.nextVictimID = acc.pool.nextVictimID ∧
    (flushStep acc kv).pool.frames.length = acc.pool.frames.length ∧
    ∀ i, frameCore ((flushStep acc kv).pool.frames.getD i defaultFrame) =
      frameCore (acc.pool.frames.getD i defaultFrame) := by
  refine ⟨rfl, rfl, by simp [flushStep], ?_⟩
  intro i
  simp only [flushStep]
  by_cases hij : i = kv.2
  · rw [hij]
    by_cases hr : kv.2 < acc.pool.frames.length
    · rw [getD_set_eq _ _ _ _ hr]
      rfl
    · have h1 : ((acc.pool.frames.set kv.2
          { acc.pool.frames.getD kv.2 defaultFrame with
            buffer := { (acc.pool.frames.getD kv.2 defaultFrame).buffer with
              isDirty := false } }).getD kv.2 defaultFrame) = defaultFrame := by
        rw [List.getD_eq_getElem?_getD, List.getElem?_set]
        simp [hr]
      have h2 : acc.pool.frames.getD kv.2 defaultFrame = defaultFrame :=
        getD_eq_default _ _ _ (by omega)
      rw [h1, h2]
  · rw [getD_set_ne _ _ _ _ _ hij]

/-- Flush leaves table, cursor, length and frame cores unchanged. -/
theorem flushPages_core (m : BPM) :
    (flushPages m).pageTable = m.pageTable ∧
    (flushPages m).pool.nextVictimID = m.pool.nextVictimID ∧
    (flushPages m).pool.frames.length = m.pool.frames.length ∧
    ∀ i, frameCore ((flushPages m).pool.frames.getD i defaultFrame) =
      frameCore (m.pool.frames.getD i defaultFrame) := by
  have hgen : ∀ (l : List (Nat × Nat)) (acc : BPM),
      (l.foldl flushStep acc).pageTable = acc.pageTable ∧
      (l.foldl flushStep acc).pool.nextVictimID = acc.pool.nextVictimID ∧
      (l.foldl flushStep acc).pool.frames.length = acc.pool.frames.length ∧
      ∀ i, frameCore ((l.foldl flushStep acc).pool.frames.getD i defaultFrame) =
        frameCore (acc.pool.frames.getD i defaultFrame) := by
    intro l
    induction l with
    | nil => intro acc; exact ⟨rfl, rfl, rfl, fun i => rfl⟩
    | cons kv l ih =>
      intro acc
      have h1 := flushStep_core acc kv
      have h2 := ih (flushStep acc kv)
      simp only [List.foldl_cons]
      exact ⟨h2.1.trans h1.1, h2.2.1.trans h1.2.1, h2.2.2.1.trans h1.2.2.1,
        fun i => (h2.2.2.2 i).trans (h1.2.2.2 i)⟩
  exact hgen m.pageTable m

/-- Flush preserves everything. -/
theorem flush_opFacts (m : BPM) (hInv : Inv m) : opFacts m (flushPages m) := by
  obtain ⟨htabE, hnvE, hlenE, hcoreE⟩ := flushPages_core m
  obtain ⟨hlen, hnv, hfr⟩ := hInv
  have hcore : ∀ i,
      ((flushPages m).pool.frames.getD i defaultFrame).usageCount =
        (m.pool.frames.getD i defaultFrame).usageCount ∧
      ((flushPages m).pool.frames.getD i defaultFrame).buffer.refCount =
        (m.pool.frames.getD i defaultFrame).buffer.refCount := by
    intro i
    have h := hcoreE i
    simp only [frameCore, Prod.ext_iff] at h
    exact ⟨h.1, h.2.1⟩
  refine ⟨⟨?_, ?_, ?_⟩, ?_, ?_⟩
  · rw [hlenE]
    exact hlen
  · rw [hnvE, hlenE]
    exact hnv
  · intro i hi
    rw [hlenE] at hi
    obtain ⟨hu, hr⟩ := hcore i
    rw [hu, hr]
    exact hfr i hi
  · exact hlenE
  · intro i
    unfold refAt
    rw [(hcore i).2]

/-- Every manager operation preserves the invariant, the pool size, and
every reference count. -/
theorem applyOp_opFacts (m : BPM) (op : MOp) (hInv : Inv m) :
    opFacts m (applyOp m op) := by
  cases op with
  | flush => exact flush_opFacts m hInv
  | fetch pid =>
    show opFacts m (fetchPage m pid).2
    cases hl : m.pageTable.lookup pid with
    | some bid =>
      simp only [fetchPage, hl]
      exact hit_opFacts m bid hInv
    | none =>
      cases he : m.pool.evict with
      | mk r1 pool2 =>
        cases r1 with
        | none =>
          obtain ⟨hfrE, hnvE⟩ := evict_err_facts m.pool pool2 hInv.1 hInv.2.1 hInv.2.2 he
          simp only [fetchPage, hl, he]
          exact pool_swap_opFacts m pool2 hInv hfrE hnvE
        | some bid =>
          obtain ⟨hfrS, hbid, hnv2, husage, href0⟩ :=
            evict_victim_facts m.pool bid pool2 hInv.1 hInv.2.1 hInv.2.2 he
          simp only [fetchPage, hl, he, hfrS, hnv2]
          split
          · exact readfail_opFacts m bid pid _ hInv hbid husage
          · exact refill_opFacts m bid _ _ _ hInv hbid husage rfl
  | create =>
    show opFacts m (createPage m).2
    cases he : m.pool.evict with
    | mk r1 pool2 =>
      cases r1 with
      | none =>
        obtain ⟨hfrE, hnvE⟩ := evict_err_facts m.pool pool2 hInv.1 hInv.2.1 hInv.2.2 he
        simp only [createPage, he]
        exact pool_swap_opFacts m pool2 hInv hfrE hnvE
      | some bid =>
        obtain ⟨hfrS, hbid, hnv2, husage, href0⟩ :=
          evict_victim_facts m.pool bid pool2 hInv.1 hInv.2.1 hInv.2.2 he
        simp only [createPage, he, hfrS, hnv2]
        exact refill_opFacts m bid _ _ _ hInv hbid husage rfl

/-- The invariant persists, the pool size is constant and reference counts
never drop along any run. -/
theorem runOps_facts (ops : List MOp) :
    ∀ m : BPM, Inv m →
      Inv (runOps m ops) ∧
      (runOps m ops).pool.frames.length = m.pool.frames.length ∧
      (∀ i, refAt m i ≤ refAt (runOps m ops) i) := by
  induction ops with
  | nil => intro m hInv; exact ⟨hInv, rfl, fun i => Nat.le_refl _⟩
  | cons op ops ih =>
    intro m hInv
    obtain ⟨h1, h2, h3⟩ := applyOp_opFacts m op hInv
    obtain ⟨g1, g2, g3⟩ := ih (applyOp m op) h1
    exact ⟨g1, g2.trans h2, fun i => Nat.le_trans (h3 i) (g3 i)⟩

/-- Once every frame is pinned, it stays pinned along any run. -/
theorem allPinnedB_runOps (ops : List MOp) (m : BPM) (hInv : Inv m)
    (hp : allPinnedB m = true) : allPinnedB (runOps m ops) = true := by
  obtain ⟨_, hlen, hmono⟩ := runOps_facts ops m hInv
  rw [allPinnedB_iff] at hp ⊢
  intro i hi
  rw [hlen] at hi
  exact Nat.le_trans (hp i hi) (hmono i)

/-- The fresh manager satisfies the invariant for a nonempty pool. -/
theorem Inv_initBPM (n : Nat) (hn : 0 < n) : Inv (initBPM n) := by
  refine ⟨?_, ?_, ?_⟩
  · simpa [initBPM, newBufferPool] using hn
  · simpa [initBPM, newBufferPool] using hn
  · intro i hi
    simp only [initBPM, newBufferPool, List.length_replicate] at hi
    have hgd : (List.replicate n defaultFrame).getD i defaultFrame = defaultFrame := by
      rw [List.getD_eq_getElem?_getD, List.getElem?_replicate]
      simp [hi]
    simp only [initBPM, newBufferPool, hgd]
    exact ⟨fun _ => rfl, fun _ => rfl⟩

/-- From an invariant state in which every frame is pinned, the sweep
fails. -/
theorem evict_fst_none_of_pinned (m : BPM) (hInv : Inv m)
    (hp : allPinnedB m = true) : (m.pool.evict).1 = none := by
  have hall := allPinned_of_invFrames m.pool.frames hInv.2.2 ((allPinnedB_iff m).mp hp)
  rw [evict_def]
  exact evictLoop_none_of_allPinned _ _ _ _ _ rfl hall hInv.2.1

/-- Claim C6, counterexample.  The claim asserts that once every frame
holds a valid page, all later CreatePage calls and FetchPage calls for
uncached page ids fail with NoFreeBuffer and no frame is reclaimed.  The
execution [CreatePage, FetchPage 5] on a fresh heap file with a pool of
two frames refutes it: the created page is never flushed, so the heap
file is empty and the fetch's disk read fails at end of file AFTER the
source marked frame 1 valid (buffer/buffer.go lines 144-149), leaving it
valid with reference count zero.  Every frame then holds a valid page,
yet fetching the uncached page id 5 fails with the propagated I/O error -
not NoFreeBuffer - and CreatePage SUCCEEDS, reclaiming frame 1. -/
theorem claim_C6_counterexample_read_error :
    allValid (runOps (initBPM 2) [MOp.create, MOp.fetch 5]) = true ∧
    (runOps (initBPM 2) [MOp.create, MOp.fetch 5]).pageTable.lookup 5 = none ∧
    errOf (fetchPage (runOps (initBPM 2) [MOp.create, MOp.fetch 5]) 5).1 =
      some BufErr.ioError ∧
    (createPage (runOps (initBPM 2) [MOp.create, MOp.fetch 5])).1.isOk = true := by
  decide

/-- Claim C6, amended.  Once every frame of the pool is pinned (its buffer
has a positive reference count) - which is what a successful fill of every
frame produces, while a failed disk read can leave a frame valid but
unpinned - every subsequent CreatePage call and every FetchPage call for a
page id not present in the page table fails with NoFreeBuffer, because no
manager operation ever decrements a buffer reference count (the final
conjunct).  n is the pool size, ops the run that reached the all-pinned
state, more any continuation, pid any page id absent from the final page
table. -/
theorem claim_C6_amended_pool_starvation (n : Nat) (ops more : List MOp) (pid : Nat)
    (hn : 0 < n)
    (hp : allPinnedB (runOps (initBPM n) ops) = true)
    (hpid : (runOps (initBPM n) (ops ++ more)).pageTable.lookup pid = none) :
    (fetchPage (runOps (initBPM n) (ops ++ more)) pid).1 = .error .noFreeBuffer ∧
    (createPage (runOps (initBPM n) (ops ++ more))).1 = .error .noFreeBuffer ∧
    (∀ i, refAt (runOps (initBPM n) ops) i ≤
      refAt (runOps (initBPM n) (ops ++ more)) i) := by
  have hsplit : runOps (initBPM n) (ops ++ more) = runOps (runOps (initBPM n) ops) more := by
    unfold runOps
    rw [List.foldl_append]
  have hInv1 : Inv (runOps (initBPM n) ops) :=
    (runOps_facts ops (initBPM n) (Inv_initBPM n hn)).1
  obtain ⟨hInv2, hlen2, hmono⟩ := runOps_facts more (runOps (initBPM n) ops) hInv1
  have hp2 : allPinnedB (runOps (runOps (initBPM n) ops) more) = true :=
    allPinnedB_runOps more (runOps (initBPM n) ops) hInv1 hp
  have h1 : ((runOps (runOps (initBPM n) ops) more).pool.evict).1 = none :=
    evict_fst_none_of_pinned _ hInv2 hp2
  cases hee : (runOps (runOps (initBPM n) ops) more).pool.evict with
  | mk r1 pool2 =>
    obtain rfl : r1 = none := by
      rw [hee] at h1
      simpa using h1
    rw [hsplit] at hpid
    refine ⟨?_, ?_, ?_⟩
    · rw [hsplit]
      simp only [fetchPage, hpid, hee]
    · rw [hsplit]
      simp only [createPage, hee]
    · intro i
      rw [hsplit]
      exact hmono i

/-- Witness for the amended claim C6: a pool of one frame filled (and
pinned) by a single CreatePage; from then on fetching the uncached page
id 7 and creating a page both fail with NoFreeBuffer. -/
theorem claim_C6_amended_pool_starvation_witness :
    (fetchPage (runOps (initBPM 1) ([MOp.create] ++ [])) 7).1 =
      .error BufErr.noFreeBuffer ∧
    (createPage (runOps (initBPM 1) ([MOp.create] ++ []))).1 =
      .error BufErr.noFreeBuffer :=
  ⟨(claim_C6_amended_pool_starvation 1 [MOp.create] [] 7
      (by decide) (by decide) (by decide)).1,
   (claim_C6_amended_pool_starvation 1 [MOp.create] [] 7
      (by decide) (by decide) (by decide)).2.1⟩
/-- Reading back a 16-bit length field written by u16LE recovers a value
below 2 ^ 16. -/
theorem readU16_append_u16LE (n : Nat) (r : Bytes) (h : n < 65536) :
    readU16 (u16LE n ++ r) = n := by
  show n % 256 + 256 * (n / 256 % 256) = n
  omega

/-- Dropping the two bytes of a u16LE field. -/
theorem drop_two_u16LE (n : Nat) (r : Bytes) : (u16LE n ++ r).drop 2 = r := rfl

/-- Claim C8.  For every pair whose key and value are each shorter than
2 ^ 16 bytes, PairFromBytes inverts Pair.ToBytes. -/
theorem claim_C8_pair_roundtrip (p : Pair) (hk : p.key.length < 65536)
    (hv : p.value.length < 65536) :
    PairFromBytes p.ToBytes = p := by
  obtain ⟨k, v⟩ := p
  simp only at hk hv
  show PairFromBytes (u16LE k.length ++ (u16LE v.length ++ (k ++ v))) = _
  have e4 : (u16LE k.length ++ (u16LE v.length ++ (k ++ v))).drop 4 = k ++ v := rfl
  have e5 : (u16LE k.length ++ (u16LE v.length ++ (k ++ v))).drop (4 + k.length) = v := by
    rw [← List.drop_drop, e4, List.drop_left]
  simp only [PairFromBytes, readU16_append_u16LE _ _ hk, drop_two_u16LE,
    readU16_append_u16LE _ _ hv, e4, e5, List.take_left, List.take_length]

/-- Witness for claim C8 at the pair with key 01 02 and value 03. -/
theorem claim_C8_pair_roundtrip_witness :
    ([1, 2] : Bytes).length < 65536 ∧ ([3] : Bytes).length < 65536 ∧
    PairFromBytes (Pair.ToBytes { key := [1, 2], value := [3] }) =
      { key := [1, 2], value := [3] } :=
  ⟨by decide, by decide,
    claim_C8_pair_roundtrip { key := [1, 2], value := [3] } (by decide) (by decide)⟩

/-- Decoding the element list written by encodeElems recovers every tuple
whose elements are each shorter than 2 ^ 16 bytes. -/
theorem decodeElems_encodeElems (t : Tuple) (he : ∀ e ∈ t, e.length < 65536) :
    decodeElems t.length (encodeElems t) = t := by
  induction t with
  | nil => rfl
  | cons e es ih =>
    have hlen : e.length < 65536 := he e (List.mem_cons_self e es)
    show decodeElems (es.length + 1) (u16LE e.length ++ (e ++ encodeElems es)) = e :: es
    simp only [decodeElems, readU16_append_u16LE _ _ hlen, drop_two_u16LE,
      List.take_left, List.drop_left]
    exact congrArg (e :: ·) (ih fun x hx => he x (List.mem_cons_of_mem e hx))

/-- Claim C9, counterexample.  The claim asserts the round trip for every
tuple.  It fails on bigTuple, whose single element holds 2 ^ 16 bytes: the
element length is stored as uint16 and truncates to zero, so decoding
returns a tuple holding one empty element. -/
theorem claim_C9_counterexample_bigTuple :
    DecodeTuple (Tuple.Encode bigTuple) ≠ bigTuple := by
  have h1 : Tuple.Encode bigTuple = 1 :: 0 :: 0 :: 0 :: List.replicate 65536 (0 : Nat) := by
    simp only [Tuple.Encode, bigTuple, encodeElems, List.length_replicate,
      List.length_cons, List.length_nil, List.append_nil, List.cons_append,
      List.nil_append]
    norm_num [u16LE]
  rw [h1]
  have h2 : DecodeTuple (1 :: 0 :: 0 :: 0 :: List.replicate 65536 (0 : Nat)) = [[]] := rfl
  rw [h2]
  show ¬ ([[]] : Tuple) = [List.replicate 65536 0]
  intro h
  have h3 : ([] : Bytes) = List.replicate 65536 0 := by injection h
  have h4 := congrArg List.length h3
  rw [List.length_replicate] at h4
  simp only [List.length_nil] at h4
  omega

/-- Claim C9, amended.  DecodeTuple inverts Tuple.Encode for every tuple
with fewer than 2 ^ 16 elements, each shorter than 2 ^ 16 bytes (the two
uint16 narrowings of the encoding are then lossless), and MergeTuple
inverts SplitTuple at every split point up to the tuple length. -/
theorem claim_C9_amended_tuple_roundtrips (t : Tuple) (n : Nat)
    (ht : t.length < 65536) (he : ∀ e ∈ t, e.length < 65536) (hn : n ≤ t.length) :
    DecodeTuple (Tuple.Encode t) = t ∧
    MergeTuple (SplitTuple t n).1 (SplitTuple t n).2 = t := by
  constructor
  · show DecodeTuple (u16LE t.length ++ encodeElems t) = t
    unfold DecodeTuple
    rw [readU16_append_u16LE _ _ ht, drop_two_u16LE]
    exact decodeElems_encodeElems t he
  · have hng : ¬ n > t.length := Nat.not_lt.mpr hn
    simp only [SplitTuple, MergeTuple, if_neg hng]
    exact List.take_append_drop n t

/-- Witness for the amended claim C9 at the two-element tuple 05, 06 split
after the first element. -/
theorem claim_C9_amended_tuple_roundtrips_witness :
    ([[5], [6]] : Tuple).length < 65536 ∧ (1 : Nat) ≤ ([[5], [6]] : Tuple).length ∧
    (DecodeTuple (Tuple.Encode [[5], [6]]) = [[5], [6]] ∧
      MergeTuple (SplitTuple [[5], [6]] 1).1 (SplitTuple [[5], [6]] 1).2 = [[5], [6]]) :=
  ⟨by decide, by decide,
    claim_C9_amended_tuple_roundtrips [[5], [6]] 1 (by decide) (by decide) (by decide)⟩

/-- Claim C1.  The claim states that every successfully inserted (k, v) is
found again by Search(Key k), whose first Next yields a pair with key k and
value v.  The code violates this: after the four successful inserts of seq4
(distinct keys d, f, h, b), the leaf split promoted the last key of the
lower half (d) as the separator, and the search rule sends a key equal to a
separator to the right child, so Search(Key d) lands on the upper-half leaf
and its first Next yields the pair with key f instead of d.  This theorem
evaluates the model at that failing input. -/
theorem claim_C1_completeness_fails_at_seq4 :
    (runInserts seq4).toOption.isSome = true ∧
    treeHasKey db4 [100] = true ∧
    searchFirstKey db4 [100] = some [102] ∧
    some [102] ≠ (some [100] : Option Bytes) := by
  decide

/-- Claim C2.  The claim states that in every reachable tree every branch
separator is strictly greater than every key of the subtree to its left.
The code violates this: after seq4 the root branch (page 3) has the single
separator d with left child page 2, and the leaf at page 2 contains the key
d itself, which is not strictly less than the separator.  This theorem
evaluates the reachable state. -/
theorem claim_C2_separator_invariant_fails_at_seq4 :
    (runInserts seq4).toOption.isSome = true ∧
    db4.fetch 0 = .meta 3 ∧
    db4.fetch 3 = .branchN { keys := [[100]], children := [2, 1] } ∧
    leafKeysOfPage db4 2 = [[98], [100]] ∧
    byteCompare [100] [100] ≠ .lt := by
  decide

/-- Claim C3.  The claim states that iterating from Start yields exactly
the inserted keys in strictly ascending order.  The code violates this:
after the six successful inserts of seq6 the second leaf split wiped the
sibling pointers of the leaf it split (SplitInsert re-initializes it) and
Branch.Insert placed the new lower-half leaf to the right of the
upper-half leaf, so the Start scan begins at the upper half and stops at
its wiped next pointer, yielding only the keys c, d out of the six
inserted keys a, b, c, d, f, h.  This theorem evaluates the model at that
failing input. -/
theorem claim_C3_start_scan_fails_at_seq6 :
    (runInserts seq6).toOption.isSome = true ∧
    startScanKeys db6 20 = [[99], [100]] ∧
    ([[99], [100]] : List Bytes) ≠ [[97], [98], [99], [100], [102], [104]] := by
  decide

/-- Claim C4.  The claim states that inserting a key already contained in
the tree returns DuplicateKey and leaves the contents unchanged.  The code
violates this: after seq4 the tree contains the key d (in the lower-half
leaf, page 2), yet Insert(d, [7]) descends right of the separator d into
the upper-half leaf, does not find d there, and succeeds - modifying the
tree and storing the key d a second time.  This theorem evaluates the
model at that failing input. -/
theorem claim_C4_duplicate_accepted_at_seq4 :
    (runInserts seq4).toOption.isSome = true ∧
    treeHasKey db4 [100] = true ∧
    (btInsert db4 0 [100] [7]).toOption.isSome = true ∧
    (btInsert db4 0 [100] [7]).toOption ≠ some db4 ∧
    ((btInsert db4 0 [100] [7]).toOption.map (fun db => leafKeysOfPage db 1)) =
      some [[100], [102], [104]] := by
  decide

/-- Claim C5, counterexample.  The claim states that inserting the 100
keys key00000 .. key00099 forces at least one leaf split, leaving the root
a branch node.  It does not: the 100 pairs occupy 100 x 22 encoded bytes
plus 100 slots plus the 20-byte header, 2420 of the 4088 payload bytes, so
every insert fits in the single root leaf.  After the run the root is
still a leaf and the store holds exactly the meta page and that one leaf
page. -/
theorem claim_C5_no_split_after_seq100 :
    (runInserts seq100).toOption.isSome = true ∧
    rootIsLeaf db100 = true ∧
    db100.pages.length = 2 := by
  decide

/-- Claim C5, amended.  Inserting the 100 keys key00000 .. key00099 with
their corresponding values succeeds, forces no leaf split (the root is
still a leaf and the store holds only the meta page and that leaf), and
iterating from Start yields exactly the 100 keys in strictly ascending
byte-lexicographic order. -/
theorem claim_C5_amended_seq100_single_leaf_scan :
    (runInserts seq100).toOption.isSome = true ∧
    rootIsLeaf db100 = true ∧
    db100.pages.length = 2 ∧
    startScanKeys db100 200 = (List.range 100).map keyOf ∧
    strictlyAscending ((List.range 100).map keyOf) = true ∧
    ((List.range 100).map keyOf).length = 100 := by
  decide

/-- Advancing on the freshly created tree: the iterator stays on the empty
root leaf (page 1, no next pointer) and only its slot grows. -/
theorem iterAdvanceN_create (s n : Nat) :
    iterAdvanceN btCreate.1 { page := 1, slot := s } n = { page := 1, slot := s + n } := by
  induction n with
  | zero => rfl
  | succ n ih => rw [iterAdvanceN, ih]; rfl

/-- Search on the freshly created tree succeeds and returns the iterator
at page 1, slot 1 (the empty root leaf, advanced once because slot 0
already equals num_pairs), for Start as well as for any key. -/
theorem btSearch_create (c : SearchCrit) :
    btSearch btCreate.1 0 c = .ok { page := 1, slot := 1 } := by
  cases c with
  | start => rfl
  | key k =>
    simp [btSearch, btCreate, DB.createPage, DB.store, DB.fetch, searchInternal,
      critTupleSlotID, Leaf.SearchSlotID, leafEmpty, leafSearchAux, Leaf.numPairs,
      Iter.advance]

/-- Claim C10.  On a freshly created tree, Search with Start or with any
Key(k) succeeds, and the n-th Next (n = 0 being the first) yields no pair;
no error is possible since the model of Next is total and the search
result is ok.  -/
theorem claim_C10_empty_tree_search (c : SearchCrit) (n : Nat) :
    (btSearch btCreate.1 0 c).isOk = true ∧
    (btSearch btCreate.1 0 c).toOption.map
      (fun it => ((iterAdvanceN btCreate.1 it n).next btCreate.1).1) = some none := by
  rw [btSearch_create c]
  refine ⟨rfl, ?_⟩
  simp only [Except.toOption, Option.map, iterAdvanceN_create, Iter.next]
  simp [Iter.get, btCreate, DB.createPage, DB.store, DB.fetch, leafEmpty, Leaf.numPairs]

end MiniDB
